import Mathlib

/-!
Verification of `audit_unwrap.py`, a single-pass lexical scanner that walks a
Rust source tree and reports `.unwrap()` calls occurring outside test code.

The scanner is embedded shallowly: lines of text are lists of characters,
Python's `in` / `startswith` / `endswith` become `List.IsInfix`,
`List.IsPrefix`, `List.IsSuffix`, and the per-line mutable state
(`in_test`, `brace_depth`, `test_start_depth`) becomes an explicit
`ScanState` value threaded through the line sequence.
-/

namespace AuditUnwrap

/-- a line of text, modelled as its list of characters. -/
abbrev Line := List Char

/-- the test-module marker `"#[cfg(test)]"` looked for on source line 24. -/
def markerCfgTest : Line := "#[cfg(test)]".toList

/-- the single-test marker `"#[test]"` looked for on source line 24. -/
def markerTest : Line := "#[test]".toList

/-- the flagged pattern `".unwrap()"` of source line 39. -/
def targetPat : Line := ".unwrap()".toList

/-- the excluded safe-variant pattern `".unwrap_or"` of source line 39. -/
def excludedPat : Line := ".unwrap_or".toList

/-- the single-line comment marker `"//"` of source line 36. -/
def commentMark : Line := "//".toList

/-- Python's `str.strip()`: remove leading and trailing whitespace
(source line 23). -/
def strip (l : Line) : Line :=
  ((l.dropWhile Char.isWhitespace).reverse.dropWhile Char.isWhitespace).reverse

/-- the per-file scanner state of source lines 18-20. -/
structure ScanState where
  in_test : Bool
  brace_depth : Int
  test_start_depth : Int
deriving DecidableEq

/-- the fresh state created at the start of each file (source lines 18-20). -/
def initState : ScanState := ⟨false, 0, 0⟩

/-- does a stripped line contain one of the two test markers (source line 24). -/
def hasMarker (stripped : Line) : Bool :=
  decide (markerCfgTest <:+: stripped) || decide (markerTest <:+: stripped)

/-- test-marker detection (source lines 24-26): on a marker line the scanner
sets `in_test` and overwrites `test_start_depth` with the current depth;
the assignment in the source is not guarded by the current `in_test`. -/
def markerStep (st : ScanState) (line : Line) : ScanState :=
  if hasMarker (strip line) then
    { st with in_test := true, test_start_depth := st.brace_depth }
  else st

/-- the unconditional brace-depth update of source line 28. -/
def depthStep (st : ScanState) (line : Line) : ScanState :=
  { st with
    brace_depth :=
      st.brace_depth + (line.count '\x7b' : Int) - (line.count '\x7d' : Int) }

/-- the test-block exit check of source lines 30-31. -/
def exitStep (st : ScanState) : ScanState :=
  if st.in_test ∧ st.brace_depth ≤ st.test_start_depth then
    { st with in_test := false }
  else st

/-- the full state transition performed for one line, in source order:
marker detection (lines 24-26), depth update (line 28), exit check
(lines 30-31). -/
def stepState (st : ScanState) (line : Line) : ScanState :=
  exitStep (depthStep (markerStep st line) line)

/-- the scanner state after a whole list of lines, starting fresh. -/
def runState (lines : List Line) : ScanState :=
  lines.foldl stepState initState

/-- is the line entirely a comment, i.e. its stripped text starts with `//`
(source line 36). -/
def isCommentLine (line : Line) : Bool :=
  decide (commentMark <+: strip line)

/-- the pattern-match condition of source line 39: the raw line contains
`".unwrap()"` but not `".unwrap_or"`. -/
def patMatch (line : Line) : Bool :=
  decide (targetPat <:+: line) && !decide (excludedPat <:+: line)

/-- does a line produce a Finding, given the state `st'` already updated by
this line's own marker/depth/exit steps (source lines 33-40): the line is
skipped while still in test mode, skipped as a full-line comment, and
otherwise flagged exactly when the pattern matches. -/
def emitAfter (st' : ScanState) (line : Line) : Bool :=
  !st'.in_test && !isCommentLine line && patMatch line

/-- a per-file Finding: 1-indexed line number and stripped text
(source line 40). -/
abbrev Finding := Nat × Line

/-- the scan of the remaining lines, given the current state and the
1-indexed number of the next line (source lines 22-40). -/
def scanGo (st : ScanState) (i : Nat) : List Line → List Finding
  | [] => []
  | l :: ls =>
    let st' := stepState st l
    (if emitAfter st' l then [(i, strip l)] else []) ++ scanGo st' (i + 1) ls

/-- all Findings of one file (source lines 18-40). -/
def scanLines (lines : List Line) : List Finding :=
  scanGo initState 1 lines

/-- the four-line input file of the spec's concrete scenario 2:
`#[test]`, `fn t() {`, `    let x = foo.unwrap();`, `}`. -/
def demoTestFile : List Line :=
  ["#[test]".toList, "fn t() \x7b".toList,
   "    let x = foo.unwrap();".toList, "\x7d".toList]

/-- a run-level Finding as appended to `results` on source line 40: file
path, 1-indexed line number, stripped text. -/
abbrev FileFinding := Line × Nat × Line

/-- Python's ordering on `(path, line, text)` tuples, as used by
`sorted(results)` on source line 42: lexicographic by component, with paths
and texts compared lexicographically by character. -/
def tupleLE (a b : FileFinding) : Prop :=
  a.1 < b.1 ∨ (a.1 = b.1 ∧ (a.2.1 < b.2.1 ∨ (a.2.1 = b.2.1 ∧ a.2.2 ≤ b.2.2)))

instance : DecidableRel tupleLE := fun a b => by
  unfold tupleLE
  infer_instance

/-- the composite report key of the spec: file path first, then line
number. -/
def keyLE (a b : FileFinding) : Prop :=
  a.1 < b.1 ∨ (a.1 = b.1 ∧ a.2.1 ≤ b.2.1)

/-- the aggregator's sort of all collected Findings (source line 42). -/
def sortFindings (l : List FileFinding) : List FileFinding :=
  l.mergeSort fun a b => decide (tupleLE a b)

/-- one rendered report line, `"<path>:<line>: <code>"` (source line 43). -/
def renderFinding (f : FileFinding) : Line :=
  f.1 ++ ':' :: (Nat.repr f.2.1).toList ++ ':' :: ' ' :: f.2.2

/-- the rendered report body: all Findings, sorted, one line each
(source lines 42-43). -/
def reportLines (l : List FileFinding) : List Line :=
  (sortFindings l).map renderFinding

/-- the path separator used by the directory walk. -/
def pathSep : Char := '/'

/-- the build-artifact directory name `target` of source line 9. -/
def targetDirName : Line := "target".toList

/-- the source-file extension `".rs"` of source line 12. -/
def srcExt : Line := ".rs".toList

/-- the disabled-file marker `".disabled"` of source line 12. -/
def disabledMark : Line := ".disabled".toList

/-- a name wrapped in path separators; `sepWrap targetDirName` is the
`"/target/"` substring tested on source line 9. -/
def sepWrap (m : Line) : Line :=
  pathSep :: (m ++ [pathSep])

/-- a path, joined from its segments by the separator, as built by
`os.walk` and `os.path.join`. -/
def joinPath : List Line → Line
  | [] => []
  | [s] => s
  | s :: rest => s ++ pathSep :: joinPath rest

/-- the directory-skip test of source lines 9-10: the walk root is skipped
when its path contains `"/target/"` as a substring. -/
def skipDir (root : Line) : Bool :=
  decide (sepWrap targetDirName <:+: root)

/-- the file filter of source line 12: keep names ending in `".rs"` and not
containing `".disabled"`. -/
def fileOk (f : Line) : Bool :=
  decide (srcExt <:+ f) && !decide (disabledMark <:+: f)

/-- the paths yielded from one walk entry (source lines 8-14): nothing when
the root is skipped, otherwise the filtered file names joined to the
root. -/
def yieldFiles (root : Line) (files : List Line) : List Line :=
  if skipDir root then []
  else (files.filter fileOk).map fun f => root ++ pathSep :: f

/-- the File Enumerator over the entries produced by the directory walk
(`os.walk` is the external filesystem collaborator: each entry is the
segment list of one visited directory together with its file names). -/
def enumerate (entries : List (List Line × List Line)) : List Line :=
  entries.flatMap fun e => yieldFiles (joinPath e.1) e.2

/-- does a segment list contain `m` as an interior segment, i.e. neither
first nor last. -/
def interiorSeg (m : Line) (segs : List Line) : Prop :=
  ∃ pre post, segs = pre ++ m :: post ∧ pre ≠ [] ∧ post ≠ []

/-- walk entries of a tree `crates/{target/{a.rs}}`, where the `target`
directory directly contains a source file. -/
def demoEntries : List (List Line × List Line) :=
  [(["crates".toList], []),
   (["crates".toList, "target".toList], ["a.rs".toList])]

/-- the two demo run-level Findings of the spec's concrete scenario 5:
`b.rs` line 5 and `a.rs` line 2. -/
def demoFindA : FileFinding := ("a.rs".toList, 2, "foo.unwrap();".toList)

/-- the second demo Finding, in `b.rs`. -/
def demoFindB : FileFinding := ("b.rs".toList, 5, "bar.unwrap();".toList)

/-- an emitted line always contains the target pattern. -/
theorem emitAfter_target {st' : ScanState} {l : Line}
    (h : emitAfter st' l = true) : decide (targetPat <:+: l) = true := by
  simp only [emitAfter, patMatch, Bool.and_eq_true] at h
  exact h.2.1

/-- the number of Findings of a partial scan is bounded by the number of
remaining lines containing the target pattern. -/
theorem length_scanGo_le (st : ScanState) (i : Nat) (ls : List Line) :
    (scanGo st i ls).length ≤ ls.countP (fun l => decide (targetPat <:+: l)) := by
  induction ls generalizing st i with
  | nil => simp [scanGo]
  | cons l ls ih =>
    simp only [scanGo, List.countP_cons, List.length_append]
    by_cases h : emitAfter (stepState st l) l = true
    · rw [emitAfter_target h]
      simp only [h, if_true, List.length_singleton]
      have := ih (stepState st l) (i + 1)
      omega
    · rw [Bool.not_eq_true] at h
      simp only [h, Bool.false_eq_true, if_false, List.length_nil]
      have := ih (stepState st l) (i + 1)
      by_cases hp : (decide (targetPat <:+: l)) = true <;> simp [hp] <;> omega

/-- C1: the code is expected to emit no Finding for a line inside a test
block, and in particular zero Findings for the four-line file `#[test]`,
`fn t() {`, `    let x = foo.unwrap();`, `}`. The code in fact emits one
Finding there, at line 3: the exit check of source lines 30-31 runs on the
marker line itself, and since `#[test]` contains no brace the depth is
still equal to the captured start depth, so test mode is left again before
the line that opens the block. -/
theorem c1_test_block_file_flagged :
    scanLines demoTestFile = [(3, "let x = foo.unwrap();".toList)] := by
  decide

/-- C5: the number of Findings emitted for a file never exceeds the number
of its lines that contain the target substring `".unwrap()"`. -/
theorem c5_findings_le_target_lines (lines : List Line) :
    (scanLines lines).length ≤
      lines.countP (fun l => decide (targetPat <:+: l)) :=
  length_scanGo_le initState 1 lines

/-- C10: after the depth update and the exit check of a line, whenever
`in_test` is still true the current brace depth is strictly greater than
the captured test-block start depth; hence every line skipped as test code
lies at strictly greater depth than the depth captured when its test block
was entered. -/
theorem c10_in_test_depth_invariant (st : ScanState) (line : Line)
    (h : (stepState st line).in_test = true) :
    (stepState st line).test_start_depth < (stepState st line).brace_depth := by
  unfold stepState exitStep at h ⊢
  set st2 := depthStep (markerStep st line) line with hst2
  by_cases hc : st2.in_test ∧ st2.brace_depth ≤ st2.test_start_depth
  · simp only [hc, if_true] at h
    simp at h
  · simp only [hc, if_false] at h ⊢
    rcases not_and_or.mp hc with hni | hle
    · exact absurd h hni
    · exact lt_of_not_le hle

/-- C10 witness: a concrete line that leaves the scanner in test mode, at
depth 1 with captured start depth 0. -/
theorem c10_witness :
    (stepState initState ("#[test] fn t() \x7b".toList)).test_start_depth <
      (stepState initState ("#[test] fn t() \x7b".toList)).brace_depth :=
  c10_in_test_depth_invariant initState ("#[test] fn t() \x7b".toList) (by decide)

/-- every Finding of a partial scan comes from a line at the reported
position whose text matches the pattern and is not a full-line comment. -/
theorem mem_scanGo (st : ScanState) (i : Nat) (ls : List Line) (p : Finding)
    (hp : p ∈ scanGo st i ls) :
    ∃ j : Fin ls.length, p.1 = i + j.val ∧ p.2 = strip (ls.get j) ∧
      patMatch (ls.get j) = true ∧ isCommentLine (ls.get j) = false := by
  induction ls generalizing st i with
  | nil => simp [scanGo] at hp
  | cons l ls ih =>
    simp only [scanGo, List.mem_append] at hp
    rcases hp with hp | hp
    · by_cases h : emitAfter (stepState st l) l = true
      · simp only [h, if_true, List.mem_singleton] at hp
        subst hp
        have hpm : patMatch l = true := by
          simp only [emitAfter, Bool.and_eq_true] at h
          exact h.2
        have hcm : isCommentLine l = false := by
          simp only [emitAfter, Bool.and_eq_true, Bool.not_eq_true'] at h
          exact h.1.2
        exact ⟨⟨0, Nat.succ_pos _⟩, by simp, by simp, hpm, hcm⟩
      · rw [Bool.not_eq_true] at h
        simp [h] at hp
    · obtain ⟨j, h1, h2, h3, h4⟩ := ih (stepState st l) (i + 1) hp
      refine ⟨⟨j.val + 1, by have := j.isLt; simp only [List.length_cons]; omega⟩,
        ?_, ?_, ?_, ?_⟩
      · simp only [h1]; omega
      · simpa using h2
      · simpa using h3
      · simpa using h4

/-- C7: a line containing the excluded safe variant `".unwrap_or"` never
produces a Finding, and in particular the one-line file
`let x = foo.unwrap_or(0);` yields zero Findings. -/
theorem c7_unwrap_or_not_flagged :
    (∀ (lines : List Line) (j : Fin lines.length),
        excludedPat <:+: lines.get j →
        ∀ txt : Line, (j.val + 1, txt) ∉ scanLines lines) ∧
      scanLines ["let x = foo.unwrap_or(0);".toList] = [] := by
  constructor
  · intro lines j hex txt hmem
    obtain ⟨j', h1, _, h3, _⟩ := mem_scanGo initState 1 lines _ hmem
    have hj : j' = j := by
      apply Fin.ext
      simp only at h1
      omega
    subst hj
    simp only [patMatch, Bool.and_eq_true, Bool.not_eq_true',
      decide_eq_false_iff_not] at h3
    exact h3.2 hex
  · decide

/-- C7 witness: no Finding is reported at line 1 of a two-line file whose
first line contains `".unwrap_or"`. -/
theorem c7_witness :
    ((1 : Nat), "x".toList) ∉
      scanLines ["  let y = foo.unwrap_or(5);".toList, "bar();".toList] :=
  c7_unwrap_or_not_flagged.1
    ["  let y = foo.unwrap_or(5);".toList, "bar();".toList]
    ⟨0, by decide⟩ (by decide) ("x".toList)

/-- C8: a line whose trimmed text begins with the comment marker `//` never
produces a Finding, even if it contains the target substring. -/
theorem c8_comment_line_not_flagged :
    ∀ (lines : List Line) (j : Fin lines.length),
      isCommentLine (lines.get j) = true →
      ∀ txt : Line, (j.val + 1, txt) ∉ scanLines lines := by
  intro lines j hcm txt hmem
  obtain ⟨j', h1, _, _, h4⟩ := mem_scanGo initState 1 lines _ hmem
  have hj : j' = j := by
    apply Fin.ext
    simp only at h1
    omega
  subst hj
  rw [hcm] at h4
  exact Bool.true_eq_false.mp h4

/-- C8 witness: no Finding is reported at line 1 of a file whose single line
is a full-line comment containing `".unwrap()"`. -/
theorem c8_witness :
    ((1 : Nat), "x".toList) ∉
      scanLines ["    // keep foo.unwrap() for later".toList] :=
  c8_comment_line_not_flagged ["    // keep foo.unwrap() for later".toList]
    ⟨0, by decide⟩ (by decide) ("x".toList)

/-- C9: marker detection runs before the comment skip, so even a marker line
whose trimmed text begins with `//` sets `in_test` and captures the start
depth; consequently a commented-out marker can suppress later `.unwrap()`
lines, as the concrete two-line file shows. -/
theorem c9_commented_marker_still_toggles :
    (∀ (st : ScanState) (line : Line), hasMarker (strip line) = true →
        isCommentLine line = true →
        (markerStep st line).in_test = true ∧
          (markerStep st line).test_start_depth = st.brace_depth) ∧
      scanLines ["// #[cfg(test)] \x7b".toList,
        "let x = foo.unwrap();".toList] = [] := by
  constructor
  · intro st line hm _
    simp [markerStep, hm]
  · decide

/-- C9 witness: a concrete commented marker line, processed from a concrete
state, enters test mode and captures the current depth. -/
theorem c9_witness :
    (markerStep ⟨false, 2, 7⟩ ("// #[test]".toList)).in_test = true ∧
      (markerStep ⟨false, 2, 7⟩ ("// #[test]".toList)).test_start_depth = 2 :=
  c9_commented_marker_still_toggles.1 ⟨false, 2, 7⟩ ("// #[test]".toList)
    (by decide) (by decide)

/-- on a marker line, the state after the full step is determined by the
depth before the line and the line's brace counts: the start depth is
captured unconditionally, and test mode survives the exit check iff the
line's braces push the depth strictly above the captured start. -/
theorem stepState_marker_eq (st : ScanState) (line : Line)
    (hm : hasMarker (strip line) = true) :
    stepState st line =
      if st.brace_depth + (line.count '\x7b' : Int) - line.count '\x7d' ≤
          st.brace_depth then
        ⟨false, st.brace_depth + (line.count '\x7b' : Int) - line.count '\x7d',
          st.brace_depth⟩
      else
        ⟨true, st.brace_depth + (line.count '\x7b' : Int) - line.count '\x7d',
          st.brace_depth⟩ := by
  unfold stepState markerStep depthStep exitStep
  rw [if_pos hm]
  split
  next hcond =>
    rw [if_pos hcond.2]
  next hcond =>
    rw [if_neg fun hle => hcond ⟨rfl, hle⟩]

/-- C2 counterexample: a line that both contains a test marker and matches
the flagged pattern, scanned from the initial (non-test) state, is claimed
to be suppressed; the code in fact reports it, because the line has no
braces, so the exit check clears test mode again on the same line before
the pattern-match step. -/
theorem c2_counterexample :
    scanLines ["#[test] let x = foo.unwrap();".toList] =
      [(1, "#[test] let x = foo.unwrap();".toList)] := by
  decide

/-- C2 amended: a line that contains a test marker and matches the flagged
pattern, reached while not in test mode, is suppressed iff it opens more
braces than it closes (so that the exit check does not immediately clear
test mode) or it is itself a full-line comment; otherwise it emits a
Finding. -/
theorem c2_marker_pattern_line (st : ScanState) (line : Line)
    (h0 : st.in_test = false) (hm : hasMarker (strip line) = true)
    (hp : patMatch line = true) :
    (emitAfter (stepState st line) line = false ↔
      (line.count '\x7d' < line.count '\x7b' ∨ isCommentLine line = true)) := by
  rw [stepState_marker_eq st line hm]
  by_cases hbr : line.count '\x7d' < line.count '\x7b'
  · rw [if_neg (by omega)]
    simp [emitAfter, hbr]
  · rw [if_pos (by omega)]
    cases hcm : isCommentLine line <;> simp [emitAfter, hcm, hbr, hp]

/-- C2 amended witness: a marker line that opens a brace and contains the
pattern is suppressed. -/
theorem c2_amended_witness :
    emitAfter
        (stepState initState ("#[test] fn t() \x7b foo.unwrap();".toList))
        ("#[test] fn t() \x7b foo.unwrap();".toList) = false :=
  (c2_marker_pattern_line initState ("#[test] fn t() \x7b foo.unwrap();".toList)
      (by decide) (by decide) (by decide)).mpr
    (Or.inl (by decide))

/-- C3 counterexample: the claim says a marker line seen while already in
test mode leaves `in_test` and `test_start_depth` unchanged. After
`#[cfg(test)] mod tests {` the state is `(in_test, depth, start) =
(true, 1, 0)`; the following `#[test]` line in fact overwrites the start
depth with the current depth 1, whereupon the exit check fires and test
mode is left: the state becomes `(false, 1, 1)`, not `(true, 1, 0)`. -/
theorem c3_counterexample :
    runState ["#[cfg(test)] mod tests \x7b".toList] =
        ⟨true, 1, 0⟩ ∧
      runState ["#[cfg(test)] mod tests \x7b".toList, "#[test]".toList] =
        ⟨false, 1, 1⟩ := by
  decide

/-- C3 amended: marker detection is unconditional. Every line whose trimmed
text contains a test marker overwrites `test_start_depth` with the depth
before the line's own braces are counted, whether or not the scanner is
already in test mode, and after the line the scanner is in test mode iff
the line opens more braces than it closes. -/
theorem c3_marker_capture_unconditional (st : ScanState) (line : Line)
    (hm : hasMarker (strip line) = true) :
    (stepState st line).test_start_depth = st.brace_depth ∧
      (stepState st line).brace_depth =
        st.brace_depth + (line.count '\x7b' : Int) - line.count '\x7d' ∧
      ((stepState st line).in_test = true ↔
        line.count '\x7d' < line.count '\x7b') := by
  rw [stepState_marker_eq st line hm]
  by_cases hbr : line.count '\x7d' < line.count '\x7b'
  · rw [if_neg (by omega)]
    exact ⟨rfl, rfl, by simp [hbr]⟩
  · rw [if_pos (by omega)]
    refine ⟨rfl, rfl, ?_⟩
    simp only [Bool.false_eq_true, false_iff]
    omega

/-- C3 amended witness: from the in-test state `(true, 1, 0)`, the marker
line `#[test]` re-bases the captured start depth to 1 and, having no
braces, leaves test mode. -/
theorem c3_witness :
    (stepState ⟨true, 1, 0⟩ markerTest).test_start_depth = 1 ∧
      (stepState ⟨true, 1, 0⟩ markerTest).in_test = false := by
  have h := c3_marker_capture_unconditional ⟨true, 1, 0⟩ markerTest (by decide)
  refine ⟨h.1, ?_⟩
  have hc : ¬ (markerTest.count '\x7d' < markerTest.count '\x7b') := by decide
  exact Bool.eq_false_iff.mpr fun ht => hc (h.2.2.mp ht)

/-- the tuple order is transitive. -/
theorem tupleLE_trans (a b c : FileFinding) (h1 : tupleLE a b)
    (h2 : tupleLE b c) : tupleLE a c := by
  unfold tupleLE at *
  rcases h1 with h1 | ⟨e1, h1⟩ <;> rcases h2 with h2 | ⟨e2, h2⟩
  · exact Or.inl (lt_trans h1 h2)
  · exact Or.inl (by rw [← e2]; exact h1)
  · exact Or.inl (by rw [e1]; exact h2)
  · right
    refine ⟨e1.trans e2, ?_⟩
    rcases h1 with h1 | ⟨f1, h1⟩ <;> rcases h2 with h2 | ⟨f2, h2⟩
    · exact Or.inl (lt_trans h1 h2)
    · exact Or.inl (by omega)
    · exact Or.inl (by omega)
    · exact Or.inr ⟨by omega, le_trans h1 h2⟩

/-- the tuple order is total. -/
theorem tupleLE_total (a b : FileFinding) : tupleLE a b ∨ tupleLE b a := by
  unfold tupleLE
  rcases lt_trichotomy a.1 b.1 with h | h | h
  · exact Or.inl (Or.inl h)
  · rcases Nat.lt_trichotomy a.2.1 b.2.1 with h2 | h2 | h2
    · exact Or.inl (Or.inr ⟨h, Or.inl h2⟩)
    · rcases le_total a.2.2 b.2.2 with h3 | h3
      · exact Or.inl (Or.inr ⟨h, Or.inr ⟨h2, h3⟩⟩)
      · exact Or.inr (Or.inr ⟨h.symm, Or.inr ⟨h2.symm, h3⟩⟩)
    · exact Or.inr (Or.inr ⟨h.symm, Or.inl h2⟩)
  · exact Or.inr (Or.inl h)

/-- the tuple order is antisymmetric. -/
theorem tupleLE_antisymm (a b : FileFinding) (h1 : tupleLE a b)
    (h2 : tupleLE b a) : a = b := by
  obtain ⟨ap, al, ax⟩ := a
  obtain ⟨bp, bl, bx⟩ := b
  unfold tupleLE at *
  simp only at h1 h2 ⊢
  rcases h1 with h1 | ⟨e1, h1⟩
  · rcases h2 with h2 | ⟨e2, h2⟩
    · exact absurd h2 (lt_asymm h1)
    · exact absurd h1 (by rw [e2]; exact lt_irrefl _)
  · rcases h2 with h2 | ⟨e2, h2⟩
    · exact absurd h2 (by rw [e1]; exact lt_irrefl _)
    · subst e1
      rcases h1 with h1 | ⟨f1, h1⟩
      · rcases h2 with h2 | ⟨f2, h2⟩
        · omega
        · omega
      · rcases h2 with h2 | ⟨f2, h2⟩
        · omega
        · subst f1
          rw [le_antisymm h1 h2]

/-- the tuple order refines the spec's composite report key. -/
theorem tupleLE_key {a b : FileFinding} (h : tupleLE a b) : keyLE a b := by
  unfold tupleLE keyLE at *
  rcases h with h | ⟨e, hin⟩
  · exact Or.inl h
  · refine Or.inr ⟨e, ?_⟩
    rcases hin with h2 | ⟨e2, _⟩
    · exact le_of_lt h2
    · exact le_of_eq e2

/-- the sorted Findings list is sorted under the tuple order. -/
theorem sortFindings_sorted (l : List FileFinding) :
    List.Sorted tupleLE (sortFindings l) := by
  have h := @List.sorted_mergeSort FileFinding
    (fun a b : FileFinding => decide (tupleLE a b))
    (fun a b c h1 h2 => by
      rw [decide_eq_true_iff] at *
      exact tupleLE_trans a b c h1 h2)
    (fun a b => by
      rcases tupleLE_total a b with h | h <;> simp [h])
    l
  exact h.imp fun hab => of_decide_eq_true hab

/-- C4: the printed report lists the collected Findings sorted by the
composite key (file path lexicographic, then line number), and both the
sorted list and the rendered report lines are identical for any two
permutations of the same Findings, i.e. independent of file scan order. -/
theorem c4_report_sorted_and_deterministic (l l' : List FileFinding)
    (hp : l.Perm l') :
    sortFindings l = sortFindings l' ∧
      List.Sorted keyLE (sortFindings l) ∧
      reportLines l = reportLines l' := by
  have hperm : (sortFindings l).Perm (sortFindings l') :=
    ((l.mergeSort_perm _).trans hp).trans (l'.mergeSort_perm _).symm
  have heq : sortFindings l = sortFindings l' :=
    @List.eq_of_perm_of_sorted _ tupleLE ⟨tupleLE_antisymm⟩ _ _ hperm
      (sortFindings_sorted l) (sortFindings_sorted l')
  refine ⟨heq, ?_, ?_⟩
  · exact (sortFindings_sorted l).imp fun hab => tupleLE_key hab
  · rw [reportLines, reportLines, heq]

unseal List.merge List.mergeSort in
/-- C4 witness: the two demo Findings, fed to the aggregator in either
order, sort identically, into the `a.rs` entry followed by the `b.rs`
entry. -/
theorem c4_witness :
    (sortFindings [demoFindB, demoFindA] = sortFindings [demoFindA, demoFindB] ∧
      List.Sorted keyLE (sortFindings [demoFindB, demoFindA]) ∧
      reportLines [demoFindB, demoFindA] = reportLines [demoFindA, demoFindB]) ∧
    sortFindings [demoFindB, demoFindA] = [demoFindA, demoFindB] :=
  ⟨c4_report_sorted_and_deterministic _ _ (List.Perm.swap demoFindA demoFindB []),
    by decide⟩

/-- C6 counterexample: in a tree where the `target` directory itself
directly contains `a.rs`, the enumerator yields `crates/target/a.rs`: the
substring test `"/target/" in root` does not match the root
`crates/target` because no separator follows the final segment, so files
directly inside a `target` directory are not skipped, contrary to the
claim. -/
theorem c6_counterexample :
    enumerate demoEntries = ["crates/target/a.rs".toList] := by
  decide

/-- a pattern starting with the separator that occurs in `s ++ w` with `s`
separator-free occurs in `w`. -/
theorem sep_infix_of_append (s w p : List Char) (hs : pathSep ∉ s)
    (h : (pathSep :: p) <:+: s ++ w) : (pathSep :: p) <:+: w := by
  induction s with
  | nil => simpa using h
  | cons c s' ih =>
    rw [List.cons_append, List.infix_cons_iff] at h
    rcases h with h | h
    · rw [List.cons_prefix_cons] at h
      exact absurd (by rw [h.1]; exact List.mem_cons_self c s') hs
    · exact ih (fun hm => hs (List.mem_cons_of_mem c hm)) h

/-- uniqueness of the first separator: two decompositions of the same
string into a separator-free head followed by the separator coincide. -/
theorem firstSep_eq : ∀ (x : List Char), pathSep ∉ x →
    ∀ (y u v : List Char), pathSep ∉ y →
      x ++ pathSep :: u = y ++ pathSep :: v → x = y ∧ u = v := by
  intro x
  induction x with
  | nil =>
    intro _ y u v hy h
    cases y with
    | nil => simpa using h
    | cons c y' =>
      simp only [List.nil_append, List.cons_append, List.cons.injEq] at h
      exact absurd (by rw [h.1]; exact List.mem_cons_self c y') hy
  | cons c x' ih =>
    intro hx y u v hy h
    cases y with
    | nil =>
      simp only [List.cons_append, List.nil_append, List.cons.injEq] at h
      exact absurd (by rw [← h.1]; exact List.mem_cons_self c x') hx
    | cons d y' =>
      simp only [List.cons_append, List.cons.injEq] at h
      obtain ⟨hcd, hrest⟩ := h
      have hx' : pathSep ∉ x' := fun hm => hx (List.mem_cons_of_mem c hm)
      have hy' : pathSep ∉ y' := fun hm => hy (List.mem_cons_of_mem d hm)
      obtain ⟨hxy, huv⟩ := ih hx' y' u v hy' hrest
      exact ⟨by rw [hcd, hxy], huv⟩

/-- if `m ++ [sep]` is a prefix of a joined separator-free segment list,
the first segment is exactly `m` and at least one segment follows it. -/
theorem sepTail_prefix (m : List Char) (hm : pathSep ∉ m) :
    ∀ (rest : List Line), (∀ s ∈ rest, pathSep ∉ s) →
      (m ++ [pathSep]) <+: joinPath rest →
      ∃ post, rest = m :: post ∧ post ≠ [] := by
  intro rest hrest hpre
  cases rest with
  | nil =>
    rw [joinPath] at hpre
    obtain ⟨t, ht⟩ := hpre
    simp at ht
  | cons r rest' =>
    have hr : pathSep ∉ r := hrest r (List.mem_cons_self r rest')
    cases rest' with
    | nil =>
      simp only [joinPath] at hpre
      exact absurd (hpre.subset (by simp)) hr
    | cons r2 rest'' =>
      simp only [joinPath] at hpre
      obtain ⟨t, ht⟩ := hpre
      have ht2 : m ++ pathSep :: t = r ++ pathSep :: joinPath (r2 :: rest'') := by
        simpa [List.append_assoc] using ht
      obtain ⟨hrm, -⟩ := firstSep_eq m hm r t (joinPath (r2 :: rest'')) hr ht2
      exact ⟨r2 :: rest'', by rw [← hrm], by simp⟩

/-- joining distributes over appending nonempty segment lists, inserting
one separator at the junction. -/
theorem joinPath_append : ∀ (xs ys : List Line), xs ≠ [] → ys ≠ [] →
    joinPath (xs ++ ys) = joinPath xs ++ pathSep :: joinPath ys := by
  intro xs
  induction xs with
  | nil => intro ys h _; exact absurd rfl h
  | cons x xs' ih =>
    intro ys _ hys
    cases xs' with
    | nil =>
      cases ys with
      | nil => exact absurd rfl hys
      | cons y ys' =>
        simp only [List.cons_append, List.nil_append, joinPath]
    | cons x2 xs'' =>
      simp only [List.cons_append]
      rw [show joinPath (x :: x2 :: (xs'' ++ ys)) =
            x ++ pathSep :: joinPath (x2 :: (xs'' ++ ys)) from rfl]
      rw [show joinPath (x :: x2 :: xs'') =
            x ++ pathSep :: joinPath (x2 :: xs'') from rfl]
      rw [← List.cons_append, ih ys (by simp) hys]
      simp [List.cons_append, List.append_assoc]

/-- an interior segment `m` makes `"/m/"` a substring of the joined path. -/
theorem interior_infix (m : Line) (segs : List Line)
    (h : interiorSeg m segs) : sepWrap m <:+: joinPath segs := by
  obtain ⟨pre, post, heq, hpre, hpost⟩ := h
  subst heq
  rw [joinPath_append pre (m :: post) hpre (by simp)]
  rw [show (m :: post : List Line) = [m] ++ post from rfl]
  rw [joinPath_append [m] post (by simp) hpost]
  refine ⟨joinPath pre, joinPath post, ?_⟩
  simp [sepWrap, joinPath, List.append_assoc]

/-- an interior segment is in particular a member of the segment list. -/
theorem interior_mem {m : Line} {segs : List Line}
    (h : interiorSeg m segs) : m ∈ segs := by
  obtain ⟨pre, post, heq, -, -⟩ := h
  rw [heq]
  simp

/-- conversely, for separator-free segments, an occurrence of `"/m/"` in
the joined path forces `m` to be an interior segment. -/
theorem infix_interior (m : List Char) (hm : pathSep ∉ m) :
    ∀ (segs : List Line), (∀ s ∈ segs, pathSep ∉ s) →
      sepWrap m <:+: joinPath segs → interiorSeg m segs := by
  intro segs
  induction segs with
  | nil =>
    intro _ h
    simp [sepWrap, joinPath] at h
  | cons s rest ih =>
    intro hfree h
    have hs : pathSep ∉ s := hfree s (List.mem_cons_self s rest)
    have hrest : ∀ x ∈ rest, pathSep ∉ x :=
      fun x hx => hfree x (List.mem_cons_of_mem s hx)
    cases rest with
    | nil =>
      simp only [joinPath] at h
      rw [sepWrap] at h
      exact absurd (h.subset (List.mem_cons_self _ _)) hs
    | cons r rest'' =>
      simp only [joinPath] at h
      rw [sepWrap] at h
      have h2 := sep_infix_of_append s (pathSep :: joinPath (r :: rest''))
        (m ++ [pathSep]) hs h
      rw [List.infix_cons_iff] at h2
      rcases h2 with h2 | h2
      · rw [List.cons_prefix_cons] at h2
        obtain ⟨post, hpost_eq, hpost_ne⟩ :=
          sepTail_prefix m hm (r :: rest'') hrest h2.2
        refine ⟨[s], post, ?_, by simp, hpost_ne⟩
        rw [hpost_eq]
        rfl
      · obtain ⟨pre', post', heq, hpre', hpost'⟩ :=
          ih hrest (by rw [sepWrap]; exact h2)
        refine ⟨s :: pre', post', ?_, by simp, hpost'⟩
        rw [heq]
        rfl

/-- the directory-skip test fires on a joined separator-free segment list
exactly when `target` occurs as an interior segment. -/
theorem skipDir_iff (segs : List Line)
    (hfree : ∀ s ∈ segs, pathSep ∉ s) :
    (skipDir (joinPath segs) = true ↔ interiorSeg targetDirName segs) := by
  rw [skipDir, decide_eq_true_iff]
  constructor
  · exact infix_interior targetDirName (by decide) segs hfree
  · exact interior_infix targetDirName segs

/-- C6 amended: for a walk entry with separator-free segment names, a file
of that directory is yielded iff the root has no interior `target` segment
and the name passes the extension and disabled-marker filters. Hence only
files in strict subdirectories of a `target` directory are skipped: files
directly inside the `target` directory itself are yielded (the skip needs
a separator after the segment), while a `target` segment that is interior
is skipped exactly, so segments merely containing `target` as a proper
substring do not trigger the skip. -/
theorem c6_target_skip_characterized (segs files : List Line) (f : Line)
    (hfree : ∀ s ∈ segs, pathSep ∉ s) (hf : f ∈ files) :
    ((joinPath segs ++ pathSep :: f) ∈ yieldFiles (joinPath segs) files ↔
      (¬ interiorSeg targetDirName segs ∧
        srcExt <:+ f ∧ ¬ disabledMark <:+: f)) := by
  unfold yieldFiles
  by_cases hskip : skipDir (joinPath segs) = true
  · rw [if_pos hskip]
    simp only [List.not_mem_nil, false_iff, not_and]
    intro hni
    exact absurd ((skipDir_iff segs hfree).mp hskip) hni
  · rw [if_neg hskip]
    have hni : ¬ interiorSeg targetDirName segs :=
      fun h => hskip ((skipDir_iff segs hfree).mpr h)
    simp only [List.mem_map, List.mem_filter]
    constructor
    · rintro ⟨f', ⟨hf', hok⟩, heqf⟩
      have hcancel : pathSep :: f' = pathSep :: f :=
        List.append_cancel_left heqf
      have hff : f' = f := by simpa using hcancel
      subst hff
      simp only [fileOk, Bool.and_eq_true, Bool.not_eq_true',
        decide_eq_true_iff, decide_eq_false_iff_not] at hok
      exact ⟨hni, hok.1, hok.2⟩
    · rintro ⟨-, hext, hdis⟩
      refine ⟨f, ⟨hf, ?_⟩, rfl⟩
      simp only [fileOk, Bool.and_eq_true, Bool.not_eq_true',
        decide_eq_true_iff, decide_eq_false_iff_not]
      exact ⟨hext, hdis⟩

/-- C6 amended witness: a source file in an ordinary directory is
yielded. -/
theorem c6_witness :
    (joinPath ["crates".toList, "src".toList] ++ pathSep :: "lib.rs".toList) ∈
      yieldFiles (joinPath ["crates".toList, "src".toList])
        ["lib.rs".toList] :=
  (c6_target_skip_characterized ["crates".toList, "src".toList]
      ["lib.rs".toList] ("lib.rs".toList) (by decide) (by simp)).mpr
    ⟨fun h => absurd (interior_mem h) (by decide), by decide, by decide⟩

end AuditUnwrap
